import Mathlib

/-!
# Concurrent traffic simulation: MessageQueue and TrafficLight

A shallow embedding of `src/TrafficLight.cpp`.

* `MessageQueue<T>` is its `std::deque<T> _q`, a `List T`.  `send` and `receive`
  each run entirely under the mutex `_mtx`, so each is one atomic step on the
  queue contents.  `receive` has three outcomes: the wait predicate is false
  (the caller stays inside `_cond.wait`), a value is returned, or `front()` is
  reached on an empty deque (undefined behaviour in C++).
* `TrafficLight` carries `_currentPhase`, its queue `_q` and the thread list of
  its base class.  One pass through the body of the `while (true)` loop of
  `cycleThroughPhases` is `cycleIteration`; the two readings of
  `system_clock::now()` it takes are inputs, as is the random source.
* Clock arithmetic is that of the machine: the tick difference is a 64-bit
  signed subtraction and the millisecond count is stored in a `long`, both
  wrapping (`wrapSigned`); the number of ticks in a millisecond and the width
  of `long` are parameters.
-/

namespace TrafficSim

/-! ## Data model -/

/-- Modelled from the spec: the header `TrafficLight.h` that declares the
enumeration is not among the sources; the phase has exactly the two members
`red` and `green` used by `TrafficLight.cpp`. -/
inductive TrafficLightPhase where
  | red
  | green
  deriving DecidableEq, Repr

/-- Modelled from the spec: the class template is declared in the missing header
`TrafficLight.h`; it owns one ordered sequence `_q` (a `std::deque<T>`), all of
whose mutations happen under the single mutex `_mtx`. -/
structure MessageQueue (T : Type) where
  _q : List T
  deriving DecidableEq, Repr

/-- Outcome of one atomic pass through `MessageQueue<T>::receive`. -/
inductive Received (T : Type) where
  /-- The wait predicate `!_q.empty()` was false: the caller stays blocked in
  `_cond.wait` and the queue is as it was. -/
  | blocked (mq : MessageQueue T)
  /-- The call returned `msg`; `mq` is the queue after `pop_front`. -/
  | returned (msg : T) (mq : MessageQueue T)
  /-- The call reached `front()` on an empty deque. -/
  | undefined
  deriving DecidableEq, Repr

/-- `std::deque::front`, defined only on a non-empty deque. -/
def front {T : Type} (q : List T) : Option T := q.head?

/-- `std::deque::pop_front`. -/
def pop_front {T : Type} (q : List T) : List T := q.tail

/-- `std::deque::emplace_back`. -/
def emplace_back {T : Type} (q : List T) (msg : T) : List T := q ++ [msg]

/-- `MessageQueue<T>::receive` (lines 6-17): under the lock, evaluate the wait
predicate; when it holds, take `front()` and `pop_front()`. -/
def MessageQueue.receive {T : Type} (mq : MessageQueue T) : Received T :=
  if !mq._q.isEmpty then
    match front mq._q with
    | some msg => Received.returned msg ⟨pop_front mq._q⟩
    | none => Received.undefined
  else Received.blocked mq

/-- `MessageQueue<T>::send` (lines 19-27): under the lock, `emplace_back`. -/
def MessageQueue.send {T : Type} (mq : MessageQueue T) (msg : T) : MessageQueue T :=
  ⟨emplace_back mq._q msg⟩

/-- A single producer performing `send(v1); ...; send(vn)` in this order. -/
def sendAll {T : Type} (mq : MessageQueue T) (vs : List T) : MessageQueue T :=
  vs.foldl MessageQueue.send mq

/-- A single consumer calling `receive()` `n` times in sequence with nothing
else running: the values returned, in order, and the queue left behind.  `none`
when one of the calls does not return (blocked for ever, or undefined). -/
def receiveN {T : Type} : Nat → MessageQueue T → Option (List T × MessageQueue T)
  | 0, mq => some ([], mq)
  | n + 1, mq =>
    match mq.receive with
    | Received.returned msg mq' =>
      match receiveN n mq' with
      | some (got, rest) => some (msg :: got, rest)
      | none => none
    | _ => none

/-! ## Interleavings of atomic queue operations -/

/-- One atomic step on the queue taken by some thread. -/
inductive QueueOp (T : Type) where
  | send (v : T)
  | receive
  deriving DecidableEq, Repr

/-- The queue together with the history of what was sent and what was
received, both in order of occurrence. -/
structure Trace (T : Type) where
  queue : MessageQueue T
  sent : List T
  received : List T
  deriving DecidableEq, Repr

/-- The empty queue with empty histories. -/
def Trace.start (T : Type) : Trace T := ⟨⟨[]⟩, [], []⟩

/-- One atomic step.  A `receive` whose predicate is false changes nothing (the
thread keeps waiting); `none` records undefined behaviour. -/
def Trace.step {T : Type} (s : Trace T) : QueueOp T → Option (Trace T)
  | QueueOp.send v => some { s with queue := s.queue.send v, sent := s.sent ++ [v] }
  | QueueOp.receive =>
    match s.queue.receive with
    | Received.returned msg mq => some { s with queue := mq, received := s.received ++ [msg] }
    | Received.blocked mq => some { s with queue := mq }
    | Received.undefined => none

/-- An interleaving: the atomic steps in the order the mutex serialises them. -/
def Trace.run {T : Type} : List (QueueOp T) → Trace T → Option (Trace T)
  | [], s => some s
  | op :: ops, s =>
    match s.step op with
    | some s' => Trace.run ops s'
    | none => none

/-- The values of the `send` steps of an interleaving, in order. -/
def sentValues {T : Type} : List (QueueOp T) → List T
  | [] => []
  | QueueOp.send v :: ops => v :: sentValues ops
  | QueueOp.receive :: ops => sentValues ops

/-! ## The traffic light -/

/-- Modelled from the spec: the base class that owns the `threads` vector is
declared in a header that is not among the sources; it merely tracks spawned
worker handles.  An entry records the member function the thread runs. -/
inductive Worker where
  | cycleThroughPhases
  deriving DecidableEq, Repr

/-- Modelled from the spec: the class is declared in the missing header
`TrafficLight.h`; it owns the current phase and one queue of phases, and
inherits the list of spawned threads. -/
structure TrafficLight where
  _currentPhase : TrafficLightPhase
  _q : MessageQueue TrafficLightPhase
  threads : List Worker
  deriving DecidableEq, Repr

/-- The constructor `TrafficLight::TrafficLight` (lines 30-33), named `init`
here because the class name is taken by the structure; the queue and the
thread list are default-constructed, hence empty. -/
def TrafficLight.init : TrafficLight :=
  { _currentPhase := TrafficLightPhase.red, _q := ⟨[]⟩, threads := [] }

/-- Outcome of one pass through the body of the loop of `waitForGreen`. -/
inductive WaitIteration where
  /-- The call `_q.receive()` did not return. -/
  | blocked (tl : TrafficLight)
  /-- A value other than green was received; the loop goes round again. -/
  | again (nextPhase : TrafficLightPhase) (tl : TrafficLight)
  /-- The value green was received; `waitForGreen` returns. -/
  | done (tl : TrafficLight)
  | undefined
  deriving DecidableEq, Repr

/-- The body of the `while (true)` loop of `waitForGreen` (lines 41-45); the
sleep changes no state. -/
def TrafficLight.waitForGreenIteration (tl : TrafficLight) : WaitIteration :=
  match tl._q.receive with
  | Received.blocked mq => WaitIteration.blocked { tl with _q := mq }
  | Received.returned nextPhase mq =>
    if nextPhase = TrafficLightPhase.green then WaitIteration.done { tl with _q := mq }
    else WaitIteration.again nextPhase { tl with _q := mq }
  | Received.undefined => WaitIteration.undefined

/-- Outcome of a call of `waitForGreen` by a single caller with nothing else
running; `got` lists the values its `receive` calls returned, in order. -/
inductive Waited where
  | returned (got : List TrafficLightPhase) (tl : TrafficLight)
  /-- The caller is blocked inside `receive` after the receives in `got`. -/
  | blocked (got : List TrafficLightPhase) (tl : TrafficLight)
  | undefined
  deriving DecidableEq, Repr

/-- The loop of `waitForGreen` (lines 40-46), at most `fuel` passes; `none` when
the fuel runs out before the loop returns or blocks. -/
def waitForGreenLoop : Nat → List TrafficLightPhase → TrafficLight → Option Waited
  | 0, _, _ => none
  | fuel + 1, got, tl =>
    match tl.waitForGreenIteration with
    | WaitIteration.blocked tl' => some (Waited.blocked got tl')
    | WaitIteration.done tl' => some (Waited.returned (got ++ [TrafficLightPhase.green]) tl')
    | WaitIteration.again nextPhase tl' => waitForGreenLoop fuel (got ++ [nextPhase]) tl'
    | WaitIteration.undefined => some Waited.undefined

/-- `TrafficLight::waitForGreen` (lines 35-47).  Every pass that goes round
again has removed one element, so one pass more than the queue length is
enough fuel. -/
def TrafficLight.waitForGreen (tl : TrafficLight) : Option Waited :=
  waitForGreenLoop (tl._q._q.length + 1) [] tl

/-- `TrafficLight::simulate` (lines 49-53): start `cycleThroughPhases` in a
thread and append the handle to `threads`. -/
def TrafficLight.simulate (tl : TrafficLight) : TrafficLight :=
  { tl with threads := tl.threads ++ [Worker.cycleThroughPhases] }

/-! ## The cycling loop -/

/-- The signal together with the local variables of `cycleThroughPhases`.
Clock readings are 64-bit signed tick counts of `system_clock`.  `phaseDuration` is a `double`
in the source and every `double` is a rational.  The comparison of line 79
converts the `long` to `double`; that conversion is exact below 2^53 and
monotone above, so for a target below 2^53 its outcome is the comparison of
the integer with the rational.  `draws` counts the calls `distr(eng)` made so
far. -/
structure CycleState where
  light : TrafficLight
  lastUpdate : Int
  phaseDuration : ℚ
  draws : Nat
  deriving DecidableEq, Repr

/-- Lines 63-70: read the clock once and draw the phase duration once.  The
injected source `distr k` is the value of the call number `k` of `distr(eng)`. -/
def cycleStart (distr : Nat → ℚ) (now : Int) (tl : TrafficLight) : CycleState :=
  { light := tl, lastUpdate := now, phaseDuration := distr 0, draws := 1 }

/-- The value of `x` in a two's-complement signed integer type of `bits` bits:
the representative of `x` modulo `2 ^ bits` in `[-2 ^ (bits - 1), 2 ^ (bits - 1))`. -/
def wrapSigned (bits : Nat) (x : Int) : Int :=
  if x % 2 ^ bits < 2 ^ (bits - 1) then x % 2 ^ bits else x % 2 ^ bits - 2 ^ bits

/-- Line 77: the value stored in `long timeSinceLastUpdate`.  The readings are
64-bit signed tick counts of `system_clock`; their difference is a 64-bit
subtraction, which wraps when the exact difference is not representable.
`duration_cast` divides by `ticksPerMs`, the number of clock ticks in one
millisecond, truncating toward zero, and the 64-bit count is stored in a
`long` of `longBits` bits (64 or 32, as the platform has it). -/
def timeSinceLastUpdate (ticksPerMs longBits : Nat) (now : Int) (s : CycleState) : Int :=
  wrapSigned longBits ((wrapSigned 64 (now - s.lastUpdate)).tdiv ticksPerMs)

/-- Lines 80-87: toggle the phase and send the new phase to the queue. -/
def TrafficLight.transition (tl : TrafficLight) : TrafficLight :=
  let phase :=
    if tl._currentPhase = TrafficLightPhase.green then TrafficLightPhase.red
    else TrafficLightPhase.green
  { tl with _currentPhase := phase, _q := tl._q.send phase }

/-- The condition of line 79. -/
def transitionDue (ticksPerMs longBits : Nat) (now : Int) (s : CycleState) : Bool :=
  decide ((timeSinceLastUpdate ticksPerMs longBits now s : ℚ) ≥ s.phaseDuration)

/-- One pass through the body of the loop of `cycleThroughPhases` (lines
73-91).  `now₁` is the clock reading of line 77 and `now₂` that of line 90. -/
def cycleIteration (ticksPerMs longBits : Nat) (now₁ now₂ : Int) (s : CycleState) : CycleState :=
  if transitionDue ticksPerMs longBits now₁ s then
    { s with light := s.light.transition, lastUpdate := now₂ }
  else s

/-- A finite run of the loop, one pair of clock readings per pass. -/
def cycleRun (ticksPerMs longBits : Nat) : List (Int × Int) → CycleState → CycleState
  | [], s => s
  | r :: rs, s => cycleRun ticksPerMs longBits rs (cycleIteration ticksPerMs longBits r.1 r.2 s)

/-- `TrafficLight::cycleThroughPhases` (lines 56-93) up to the end of the pass
number `readings.length` of its endless loop. -/
def TrafficLight.cycleThroughPhases (tl : TrafficLight) (ticksPerMs longBits : Nat) (distr : Nat → ℚ)
    (start : Int) (readings : List (Int × Int)) : CycleState :=
  cycleRun ticksPerMs longBits readings (cycleStart distr start tl)

/-- The number of passes of a run in which the condition of line 79 held. -/
def transitionCount (ticksPerMs longBits : Nat) : List (Int × Int) → CycleState → Nat
  | [], _ => 0
  | r :: rs, s =>
    (if transitionDue ticksPerMs longBits r.1 s then 1 else 0) +
      transitionCount ticksPerMs longBits rs (cycleIteration ticksPerMs longBits r.1 r.2 s)

/-- The list green, red, green, ... of length `n`. -/
def alternating (n : Nat) : List TrafficLightPhase :=
  (List.range n).map fun j =>
    if j % 2 = 0 then TrafficLightPhase.green else TrafficLightPhase.red

/-! ## Two waiters on one signal -/

/-- The two callers of `waitForGreen`. -/
inductive Waiter where
  | A
  | B
  deriving DecidableEq, Repr

/-- One atomic step of the system: a pass of the cycling loop, or one pass of
the loop of `waitForGreen` by one of the waiters. -/
inductive Event where
  | cycle (now₁ now₂ : Int)
  | wait (w : Waiter)
  deriving DecidableEq, Repr

/-- The cycling loop, both waiters, and the record of which waiter each
`receive` delivered its value to, in order of delivery. -/
structure Shared where
  cycle : CycleState
  returnedA : Bool
  returnedB : Bool
  deliveries : List (Waiter × TrafficLightPhase)
  deriving DecidableEq, Repr

/-- Whether waiter `w` has returned from `waitForGreen`. -/
def Shared.hasReturned (s : Shared) : Waiter → Bool
  | Waiter.A => s.returnedA
  | Waiter.B => s.returnedB

/-- Record that waiter `w` has returned. -/
def Shared.markReturned (s : Shared) : Waiter → Shared
  | Waiter.A => { s with returnedA := true }
  | Waiter.B => { s with returnedB := true }

/-- Both waiters have just called `waitForGreen` on the signal `c.light`. -/
def Shared.start (c : CycleState) : Shared :=
  { cycle := c, returnedA := false, returnedB := false, deliveries := [] }

/-- One atomic step.  A waiter that has returned takes no further step; `none`
records undefined behaviour. -/
def Shared.step (ticksPerMs longBits : Nat) (s : Shared) : Event → Option Shared
  | Event.cycle now₁ now₂ => some { s with cycle := cycleIteration ticksPerMs longBits now₁ now₂ s.cycle }
  | Event.wait w =>
    if s.hasReturned w then some s
    else
      match s.cycle.light.waitForGreenIteration with
      | WaitIteration.blocked tl => some { s with cycle := { s.cycle with light := tl } }
      | WaitIteration.again nextPhase tl =>
        some { s with cycle := { s.cycle with light := tl },
                      deliveries := s.deliveries ++ [(w, nextPhase)] }
      | WaitIteration.done tl =>
        some ({ s with cycle := { s.cycle with light := tl },
                       deliveries := s.deliveries ++ [(w, TrafficLightPhase.green)] }.markReturned w)
      | WaitIteration.undefined => none

/-- An interleaving of the three threads. -/
def Shared.run (ticksPerMs longBits : Nat) : List Event → Shared → Option Shared
  | [], s => some s
  | e :: es, s =>
    match s.step ticksPerMs longBits e with
    | some s' => Shared.run ticksPerMs longBits es s'
    | none => none

/-- Every value enqueued so far, in order of enqueueing: those delivered to a
waiter followed by those still in the queue. -/
def Shared.transcript (s : Shared) : List TrafficLightPhase :=
  s.deliveries.map Prod.snd ++ s.cycle.light._q._q

/-! ## Lemmas on the queue -/

theorem receive_nil {T : Type} : (MessageQueue.mk ([] : List T)).receive = Received.blocked ⟨[]⟩ := rfl

theorem receive_cons {T : Type} (x : T) (xs : List T) :
    (MessageQueue.mk (x :: xs)).receive = Received.returned x ⟨xs⟩ := rfl

theorem sendAll_q {T : Type} (vs : List T) : ∀ mq : MessageQueue T, (sendAll mq vs)._q = mq._q ++ vs := by
  induction vs with
  | nil => intro mq; simp [sendAll]
  | cons v vs ih =>
    intro mq
    have h := ih (mq.send v)
    simp only [sendAll, List.foldl_cons] at h ⊢
    rw [h]
    simp [MessageQueue.send, emplace_back]

theorem receiveN_all {T : Type} (xs : List T) : receiveN xs.length (MessageQueue.mk xs) = some (xs, ⟨[]⟩) := by
  induction xs with
  | nil => rfl
  | cons x xs ih => simp [receiveN, receive_cons, ih]

theorem Trace.step_invariant {T : Type} (s : Trace T) (op : QueueOp T)
    (h : s.received ++ s.queue._q = s.sent) :
    ∃ s', s.step op = some s' ∧ s'.received ++ s'.queue._q = s'.sent := by
  cases op with
  | send v =>
    refine ⟨_, rfl, ?_⟩
    simp [MessageQueue.send, emplace_back, ← h]
  | receive =>
    obtain ⟨⟨q⟩, snt, rcv⟩ := s
    cases q with
    | nil => exact ⟨_, rfl, h⟩
    | cons x xs =>
      refine ⟨_, rfl, ?_⟩
      simpa using h

theorem Trace.step_sent {T : Type} (s s' : Trace T) (op : QueueOp T) (h : s.step op = some s') :
    s'.sent = s.sent ++ sentValues [op] := by
  cases op with
  | send v =>
    simp only [Trace.step, Option.some.injEq] at h
    subst h
    simp [sentValues]
  | receive =>
    obtain ⟨⟨q⟩, snt, rcv⟩ := s
    cases q with
    | nil =>
      simp only [Trace.step, receive_nil, Option.some.injEq] at h
      subst h
      simp [sentValues]
    | cons x xs =>
      simp only [Trace.step, receive_cons, Option.some.injEq] at h
      subst h
      simp [sentValues]

theorem sentValues_cons {T : Type} (op : QueueOp T) (ops : List (QueueOp T)) :
    sentValues (op :: ops) = sentValues [op] ++ sentValues ops := by
  cases op <;> simp [sentValues]

theorem Trace.run_invariant {T : Type} (ops : List (QueueOp T)) :
    ∀ s : Trace T, s.received ++ s.queue._q = s.sent →
      ∃ s', Trace.run ops s = some s' ∧ s'.received ++ s'.queue._q = s'.sent ∧
        s'.sent = s.sent ++ sentValues ops := by
  induction ops with
  | nil => intro s h; exact ⟨s, rfl, h, by simp [sentValues]⟩
  | cons op ops ih =>
    intro s h
    obtain ⟨s₁, h₁, hinv⟩ := Trace.step_invariant s op h
    obtain ⟨s₂, h₂, hinv₂, hs⟩ := ih s₁ hinv
    refine ⟨s₂, ?_, hinv₂, ?_⟩
    · simp [Trace.run, h₁, h₂]
    · rw [hs, Trace.step_sent s s₁ op h₁, sentValues_cons op ops, List.append_assoc]

/-! ## Lemmas on the cycling loop -/

theorem alternating_succ (n : Nat) :
    alternating (n + 1) =
      alternating n ++ [if n % 2 = 0 then TrafficLightPhase.green else TrafficLightPhase.red] := by
  simp [alternating, List.range_succ]

theorem alternating_length (n : Nat) : (alternating n).length = n := by
  simp [alternating]

theorem cycleIteration_due (ticksPerMs longBits : Nat) (now₁ now₂ : Int) (s : CycleState)
    (h : transitionDue ticksPerMs longBits now₁ s = true) :
    cycleIteration ticksPerMs longBits now₁ now₂ s =
      { s with light := s.light.transition, lastUpdate := now₂ } := by
  simp [cycleIteration, h]

theorem cycleIteration_not_due (ticksPerMs longBits : Nat) (now₁ now₂ : Int) (s : CycleState)
    (h : transitionDue ticksPerMs longBits now₁ s = false) :
    cycleIteration ticksPerMs longBits now₁ now₂ s = s := by
  simp [cycleIteration, h]

theorem transition_phase (tl : TrafficLight) :
    (tl._currentPhase = TrafficLightPhase.red →
      tl.transition._currentPhase = TrafficLightPhase.green) ∧
    (tl._currentPhase = TrafficLightPhase.green →
      tl.transition._currentPhase = TrafficLightPhase.red) := by
  constructor <;> intro h <;> simp [TrafficLight.transition, h]

theorem transition_queue (tl : TrafficLight) :
    tl.transition._q._q = tl._q._q ++ [tl.transition._currentPhase] := by
  simp [TrafficLight.transition, MessageQueue.send, emplace_back]

theorem transition_parity (tl : TrafficLight) (n : Nat)
    (hp : tl._currentPhase = if n % 2 = 0 then TrafficLightPhase.red else TrafficLightPhase.green) :
    tl.transition._currentPhase =
        (if n % 2 = 0 then TrafficLightPhase.green else TrafficLightPhase.red) ∧
      tl.transition._currentPhase =
        if (n + 1) % 2 = 0 then TrafficLightPhase.red else TrafficLightPhase.green := by
  rcases Nat.mod_two_eq_zero_or_one n with h | h
  · have h' : (n + 1) % 2 = 1 := by omega
    rw [h] at hp
    simp [h, h', (transition_phase tl).1 hp]
  · have h' : (n + 1) % 2 = 0 := by omega
    rw [h] at hp
    simp [h, h', (transition_phase tl).2 hp]

theorem transition_transcript (tl : TrafficLight) (n : Nat)
    (hq : tl._q._q = alternating n)
    (hp : tl._currentPhase = if n % 2 = 0 then TrafficLightPhase.red else TrafficLightPhase.green) :
    tl.transition._q._q = alternating (n + 1) ∧
    tl.transition._currentPhase =
      if (n + 1) % 2 = 0 then TrafficLightPhase.red else TrafficLightPhase.green := by
  rw [transition_queue, alternating_succ, hq]
  rcases Nat.mod_two_eq_zero_or_one n with h | h
  · have h' : (n + 1) % 2 = 1 := by omega
    rw [h] at hp
    simp [h, h', (transition_phase tl).1 hp]
  · have h' : (n + 1) % 2 = 0 := by omega
    rw [h] at hp
    simp [h, h', (transition_phase tl).2 hp]

theorem cycleRun_transcript (ticksPerMs longBits : Nat) (readings : List (Int × Int)) :
    ∀ (s : CycleState) (n : Nat), s.light._q._q = alternating n →
      (s.light._currentPhase =
        if n % 2 = 0 then TrafficLightPhase.red else TrafficLightPhase.green) →
      (cycleRun ticksPerMs longBits readings s).light._q._q =
          alternating (n + transitionCount ticksPerMs longBits readings s) ∧
        (cycleRun ticksPerMs longBits readings s).light._currentPhase =
          if (n + transitionCount ticksPerMs longBits readings s) % 2 = 0 then TrafficLightPhase.red
          else TrafficLightPhase.green := by
  induction readings with
  | nil => intro s n hq hp; simpa [cycleRun, transitionCount] using ⟨hq, hp⟩
  | cons r rs ih =>
    intro s n hq hp
    simp only [cycleRun, transitionCount]
    by_cases hd : transitionDue ticksPerMs longBits r.1 s = true
    · simp only [cycleIteration_due _ _ _ _ _ hd, if_pos hd, ← Nat.add_assoc]
      obtain ⟨hq', hp'⟩ := transition_transcript s.light n hq hp
      exact ih { s with light := s.light.transition, lastUpdate := r.2 } (n + 1) hq' hp'
    · have hd' : transitionDue ticksPerMs longBits r.1 s = false := by simpa using hd
      simp only [cycleIteration_not_due _ _ _ _ _ hd', if_neg hd, Nat.zero_add]
      exact ih s n hq hp

theorem cycleRun_start_transcript (ticksPerMs longBits : Nat) (distr : Nat → ℚ) (start : Int)
    (readings : List (Int × Int)) :
    (TrafficLight.init.cycleThroughPhases ticksPerMs longBits distr start readings).light._q._q =
        alternating (transitionCount ticksPerMs longBits readings (cycleStart distr start TrafficLight.init)) ∧
      (TrafficLight.init.cycleThroughPhases ticksPerMs longBits distr start readings).light._currentPhase =
        if transitionCount ticksPerMs longBits readings (cycleStart distr start TrafficLight.init) % 2 = 0
        then TrafficLightPhase.red else TrafficLightPhase.green := by
  have := cycleRun_transcript ticksPerMs longBits readings (cycleStart distr start TrafficLight.init) 0 rfl rfl
  simpa [TrafficLight.cycleThroughPhases] using this

theorem iterate_transition_transcript (k : Nat) :
    (TrafficLight.transition^[k] TrafficLight.init)._q._q = alternating k ∧
    (TrafficLight.transition^[k] TrafficLight.init)._currentPhase =
      if k % 2 = 0 then TrafficLightPhase.red else TrafficLightPhase.green := by
  induction k with
  | zero => exact ⟨rfl, rfl⟩
  | succ k ih =>
    rw [Function.iterate_succ_apply']
    exact transition_transcript _ k ih.1 ih.2

theorem alternating_getElem? (n j : Nat) (h : j < n) :
    (alternating n)[j]? =
      some (if j % 2 = 0 then TrafficLightPhase.green else TrafficLightPhase.red) := by
  simp [alternating, List.getElem?_map, List.getElem?_range h]

theorem alternating_getLast? (n : Nat) :
    (alternating (n + 1)).getLast? =
      some (if n % 2 = 0 then TrafficLightPhase.green else TrafficLightPhase.red) := by
  rw [alternating_succ, List.getLast?_append]
  simp

/-! ## Lemmas on waitForGreen -/

theorem waitForGreenIteration_nil (tl : TrafficLight) (h : tl._q._q = []) :
    tl.waitForGreenIteration = WaitIteration.blocked tl := by
  obtain ⟨p, ⟨q⟩, th⟩ := tl
  simp only at h
  subst h
  rfl

theorem waitForGreenIteration_green (tl : TrafficLight) (xs : List TrafficLightPhase)
    (h : tl._q._q = TrafficLightPhase.green :: xs) :
    tl.waitForGreenIteration = WaitIteration.done { tl with _q := ⟨xs⟩ } := by
  obtain ⟨p, ⟨q⟩, th⟩ := tl
  simp only at h
  subst h
  rfl

theorem waitForGreenIteration_red (tl : TrafficLight) (xs : List TrafficLightPhase)
    (h : tl._q._q = TrafficLightPhase.red :: xs) :
    tl.waitForGreenIteration = WaitIteration.again TrafficLightPhase.red { tl with _q := ⟨xs⟩ } := by
  obtain ⟨p, ⟨q⟩, th⟩ := tl
  simp only at h
  subst h
  rfl

theorem waitForGreenLoop_returns : ∀ (i : Nat) (tl : TrafficLight) (got : List TrafficLightPhase)
    (fuel : Nat), tl._q._q[i]? = some TrafficLightPhase.green →
    (∀ j, j < i → tl._q._q[j]? ≠ some TrafficLightPhase.green) → i < fuel →
    waitForGreenLoop fuel got tl =
      some (Waited.returned (got ++ tl._q._q.take (i + 1))
        { tl with _q := ⟨tl._q._q.drop (i + 1)⟩ }) := by
  intro i
  induction i with
  | zero =>
    intro tl got fuel hg _ hf
    obtain ⟨f, rfl⟩ : ∃ f, fuel = f + 1 := ⟨fuel - 1, by omega⟩
    cases hq : tl._q._q with
    | nil => rw [hq] at hg; simp at hg
    | cons x xs =>
      rw [hq] at hg
      simp only [List.getElem?_cons_zero, Option.some.injEq] at hg
      subst hg
      simp [waitForGreenLoop, waitForGreenIteration_green tl xs hq]
  | succ i ih =>
    intro tl got fuel hg hfirst hf
    obtain ⟨f, rfl⟩ : ∃ f, fuel = f + 1 := ⟨fuel - 1, by omega⟩
    cases hq : tl._q._q with
    | nil => rw [hq] at hg; simp at hg
    | cons x xs =>
      rw [hq] at hg
      have hx : x = TrafficLightPhase.red := by
        have h0 := hfirst 0 (Nat.succ_pos i)
        rw [hq] at h0
        cases x with
        | red => rfl
        | green => simp at h0
      subst hx
      have hg' : xs[i]? = some TrafficLightPhase.green := by simpa using hg
      have hfirst' : ∀ j, j < i → xs[j]? ≠ some TrafficLightPhase.green := by
        intro j hj
        have := hfirst (j + 1) (by omega)
        rw [hq] at this
        simpa using this
      have := ih { tl with _q := ⟨xs⟩ } (got ++ [TrafficLightPhase.red]) f hg' hfirst' (by omega)
      simp only [waitForGreenLoop, waitForGreenIteration_red tl xs hq, this]
      simp

theorem waitForGreenLoop_blocks : ∀ (q : List TrafficLightPhase) (tl : TrafficLight)
    (got : List TrafficLightPhase) (fuel : Nat), tl._q._q = q → TrafficLightPhase.green ∉ q →
    q.length < fuel →
    waitForGreenLoop fuel got tl = some (Waited.blocked (got ++ q) { tl with _q := ⟨[]⟩ }) := by
  intro q
  induction q with
  | nil =>
    intro tl got fuel hq _ hf
    obtain ⟨f, rfl⟩ : ∃ f, fuel = f + 1 := ⟨fuel - 1, by omega⟩
    obtain ⟨p, ⟨q⟩, th⟩ := tl
    simp only at hq
    subst hq
    simp [waitForGreenLoop, TrafficLight.waitForGreenIteration, receive_nil]
  | cons x xs ih =>
    intro tl got fuel hq hno hf
    obtain ⟨f, rfl⟩ : ∃ f, fuel = f + 1 := ⟨fuel - 1, by omega⟩
    have hx : x = TrafficLightPhase.red := by
      cases x with
      | red => rfl
      | green => simp at hno
    subst hx
    have hno' : TrafficLightPhase.green ∉ xs := fun h => hno (List.mem_cons_of_mem _ h)
    have := ih { tl with _q := ⟨xs⟩ } (got ++ [TrafficLightPhase.red]) f rfl hno'
      (by simp only [List.length_cons] at hf; omega)
    simp only [waitForGreenLoop, waitForGreenIteration_red tl xs hq, this]
    simp

theorem waitForGreenLoop_fuel : ∀ (q : List TrafficLightPhase) (tl : TrafficLight)
    (got : List TrafficLightPhase) (f₁ f₂ : Nat), tl._q._q = q → q.length < f₁ → q.length < f₂ →
    waitForGreenLoop f₁ got tl = waitForGreenLoop f₂ got tl := by
  intro q
  induction q with
  | nil =>
    intro tl got f₁ f₂ hq h₁ h₂
    rw [waitForGreenLoop_blocks [] tl got f₁ hq (by simp) h₁,
      waitForGreenLoop_blocks [] tl got f₂ hq (by simp) h₂]
  | cons x xs ih =>
    intro tl got f₁ f₂ hq h₁ h₂
    obtain ⟨a, rfl⟩ : ∃ a, f₁ = a + 1 := ⟨f₁ - 1, by omega⟩
    obtain ⟨b, rfl⟩ : ∃ b, f₂ = b + 1 := ⟨f₂ - 1, by omega⟩
    simp only [List.length_cons] at h₁ h₂
    cases x with
    | green => simp [waitForGreenLoop, waitForGreenIteration_green tl xs hq]
    | red =>
      simp only [waitForGreenLoop, waitForGreenIteration_red tl xs hq]
      exact ih { tl with _q := ⟨xs⟩ } _ a b rfl (by omega) (by omega)

theorem take_first_green : ∀ (i : Nat) (q : List TrafficLightPhase),
    q[i]? = some TrafficLightPhase.green →
    (∀ j, j < i → q[j]? ≠ some TrafficLightPhase.green) →
    q.take (i + 1) = List.replicate i TrafficLightPhase.red ++ [TrafficLightPhase.green] := by
  intro i
  induction i with
  | zero =>
    intro q hg _
    cases q with
    | nil => simp at hg
    | cons x xs => simp at hg; simp [hg]
  | succ i ih =>
    intro q hg hfirst
    cases q with
    | nil => simp at hg
    | cons x xs =>
      have hx : x = TrafficLightPhase.red := by
        have h0 := hfirst 0 (Nat.succ_pos i)
        cases x with
        | red => rfl
        | green => simp at h0
      subst hx
      have hg' : xs[i]? = some TrafficLightPhase.green := by simpa using hg
      have hfirst' : ∀ j, j < i → xs[j]? ≠ some TrafficLightPhase.green := by
        intro j hj
        simpa using hfirst (j + 1) (by omega)
      have := ih xs hg' hfirst'
      simp [List.replicate_succ, this]

/-! ## Lemmas on timing and on the drawn duration -/

theorem cycleIteration_locals (ticksPerMs longBits : Nat) (now₁ now₂ : Int) (s : CycleState) :
    (cycleIteration ticksPerMs longBits now₁ now₂ s).phaseDuration = s.phaseDuration ∧
    (cycleIteration ticksPerMs longBits now₁ now₂ s).draws = s.draws := by
  by_cases hd : transitionDue ticksPerMs longBits now₁ s = true
  · rw [cycleIteration_due _ _ _ _ _ hd]
    exact ⟨rfl, rfl⟩
  · have hd' : transitionDue ticksPerMs longBits now₁ s = false := by simpa using hd
    rw [cycleIteration_not_due _ _ _ _ _ hd']
    exact ⟨rfl, rfl⟩

theorem cycleRun_locals (ticksPerMs longBits : Nat) (readings : List (Int × Int)) :
    ∀ s : CycleState, (cycleRun ticksPerMs longBits readings s).phaseDuration = s.phaseDuration ∧
      (cycleRun ticksPerMs longBits readings s).draws = s.draws := by
  induction readings with
  | nil => intro s; exact ⟨rfl, rfl⟩
  | cons r rs ih =>
    intro s
    have h₁ := cycleIteration_locals ticksPerMs longBits r.1 r.2 s
    have h₂ := ih (cycleIteration ticksPerMs longBits r.1 r.2 s)
    simp only [cycleRun]
    exact ⟨h₂.1.trans h₁.1, h₂.2.trans h₁.2⟩

theorem cycleRun_no_transition (ticksPerMs longBits : Nat) (readings : List (Int × Int)) :
    ∀ s : CycleState, transitionCount ticksPerMs longBits readings s = 0 →
      cycleRun ticksPerMs longBits readings s = s := by
  induction readings with
  | nil => intro s _; rfl
  | cons r rs ih =>
    intro s h
    simp only [transitionCount] at h
    have hd : transitionDue ticksPerMs longBits r.1 s = false := by
      by_contra hc
      have hc' : transitionDue ticksPerMs longBits r.1 s = true := by simpa using hc
      rw [if_pos hc'] at h
      omega
    have hs := cycleIteration_not_due ticksPerMs longBits r.1 r.2 s hd
    simp only [hs] at h
    simp only [cycleRun, hs]
    exact ih s (by omega)

theorem tdiv_ge_imp (a : Int) (b : Nat) (h : 4000 ≤ a.tdiv b) : 4000 * (b : Int) ≤ a := by
  rcases Nat.eq_zero_or_pos b with hb | hb
  · subst hb
    simp at h
  · have hb' : (0 : Int) < b := by exact_mod_cast hb
    rcases lt_or_le a 0 with ha | ha
    · have h1 : 0 ≤ (-a).tdiv b := Int.tdiv_nonneg (by omega) (by omega)
      rw [Int.neg_tdiv] at h1
      omega
    · rw [Int.tdiv_eq_ediv ha (by omega)] at h
      exact (Int.le_ediv_iff_mul_le hb').1 h

theorem wrapSigned_eq_self (bits : Nat) (x : Int) (hb : 0 < bits)
    (hlo : -((2 : Int) ^ (bits - 1)) ≤ x) (hhi : x < (2 : Int) ^ (bits - 1)) :
    wrapSigned bits x = x := by
  obtain ⟨k, rfl⟩ : ∃ k, bits = k + 1 := ⟨bits - 1, by omega⟩
  simp only [Nat.add_sub_cancel] at hlo hhi
  have hpos : (0 : Int) < 2 ^ k := by positivity
  have hm : (2 : Int) ^ (k + 1) = 2 * 2 ^ k := by rw [pow_succ]; ring
  unfold wrapSigned
  simp only [Nat.add_sub_cancel]
  rw [hm]
  rcases lt_or_le x 0 with hx | hx
  · have h₁ : (x + 2 * 2 ^ k) % (2 * 2 ^ k) = x + 2 * 2 ^ k :=
      Int.emod_eq_of_lt (by omega) (by omega)
    have h₂ : x % (2 * 2 ^ k) = x + 2 * 2 ^ k := by
      rw [← h₁, Int.add_emod_self]
    rw [h₂, if_neg (by omega)]
    omega
  · have h₁ : x % (2 * 2 ^ k) = x := Int.emod_eq_of_lt hx (by omega)
    rw [h₁, if_pos hhi]

theorem timeSinceLastUpdate_exact (ticksPerMs longBits : Nat) (now : Int) (s : CycleState)
    (hb : 0 < longBits)
    (hd₁ : -((2 : Int) ^ 63) ≤ now - s.lastUpdate) (hd₂ : now - s.lastUpdate < (2 : Int) ^ 63)
    (hl₁ : -((2 : Int) ^ (longBits - 1)) ≤ (now - s.lastUpdate).tdiv ticksPerMs)
    (hl₂ : (now - s.lastUpdate).tdiv ticksPerMs < (2 : Int) ^ (longBits - 1)) :
    timeSinceLastUpdate ticksPerMs longBits now s = (now - s.lastUpdate).tdiv ticksPerMs := by
  unfold timeSinceLastUpdate
  rw [wrapSigned_eq_self 64 _ (by decide) hd₁ hd₂, wrapSigned_eq_self longBits _ hb hl₁ hl₂]

theorem elapsed_of_due (ticksPerMs longBits : Nat) (now : Int) (s : CycleState)
    (hlo : 4000 ≤ s.phaseDuration) (hb : 0 < longBits)
    (hd₁ : -((2 : Int) ^ 63) ≤ now - s.lastUpdate) (hd₂ : now - s.lastUpdate < (2 : Int) ^ 63)
    (hl₁ : -((2 : Int) ^ (longBits - 1)) ≤ (now - s.lastUpdate).tdiv ticksPerMs)
    (hl₂ : (now - s.lastUpdate).tdiv ticksPerMs < (2 : Int) ^ (longBits - 1))
    (hd : transitionDue ticksPerMs longBits now s = true) :
    4000 * (ticksPerMs : Int) ≤ now - s.lastUpdate := by
  simp only [transitionDue, decide_eq_true_eq, ge_iff_le] at hd
  rw [timeSinceLastUpdate_exact _ _ _ _ hb hd₁ hd₂ hl₁ hl₂] at hd
  have h : (4000 : ℚ) ≤ (((now - s.lastUpdate).tdiv ticksPerMs : Int) : ℚ) := le_trans hlo hd
  have h' : (4000 : Int) ≤ (now - s.lastUpdate).tdiv ticksPerMs := by exact_mod_cast h
  exact tdiv_ge_imp _ _ h'

/-- Outside the representable range the stored count is not the elapsed time.
On a nanosecond clock with reference -9 * 10^18 and reading 9 * 10^18 the
64-bit subtraction wraps, the count is negative and the pass makes no
transition; with a 32-bit `long`, 2160000000 ms (25 days) are stored as a
negative count. -/
theorem timeSinceLastUpdate_wraps :
    timeSinceLastUpdate 1000000 64 9000000000000000000
      { light := TrafficLight.init, lastUpdate := -9000000000000000000,
        phaseDuration := 4000, draws := 1 } = -446744073709 ∧
    cycleIteration 1000000 64 9000000000000000000 9000000000000000000
      { light := TrafficLight.init, lastUpdate := -9000000000000000000,
        phaseDuration := 4000, draws := 1 } =
      { light := TrafficLight.init, lastUpdate := -9000000000000000000,
        phaseDuration := 4000, draws := 1 } ∧
    timeSinceLastUpdate 1000000 32 2160000000000000
      { light := TrafficLight.init, lastUpdate := 0,
        phaseDuration := 4000, draws := 1 } = -2134967296 := by
  decide

theorem due_iff (ticksPerMs longBits : Nat) (now : Int) (s : CycleState) :
    transitionDue ticksPerMs longBits now s = true ↔
      s.phaseDuration ≤ (timeSinceLastUpdate ticksPerMs longBits now s : ℚ) := by
  simp [transitionDue]

/-! ## Lemmas on two waiters -/

theorem Shared.step_transcript (ticksPerMs longBits : Nat) (s : Shared) (e : Event)
    (hq : s.transcript = alternating s.transcript.length)
    (hp : s.cycle.light._currentPhase =
      if s.transcript.length % 2 = 0 then TrafficLightPhase.red else TrafficLightPhase.green) :
    ∃ s', s.step ticksPerMs longBits e = some s' ∧ s'.transcript = alternating s'.transcript.length ∧
      s'.cycle.light._currentPhase =
        if s'.transcript.length % 2 = 0 then TrafficLightPhase.red
        else TrafficLightPhase.green := by
  cases e with
  | cycle now₁ now₂ =>
    refine ⟨_, rfl, ?_⟩
    by_cases hd : transitionDue ticksPerMs longBits now₁ s.cycle = true
    · simp only [cycleIteration_due _ _ _ _ _ hd, Shared.transcript] at hq hp ⊢
      have hl : (List.map Prod.snd s.deliveries ++ s.cycle.light.transition._q._q).length =
          (List.map Prod.snd s.deliveries ++ s.cycle.light._q._q).length + 1 := by
        simp [transition_queue, Nat.add_assoc]
      rw [hl, alternating_succ, ← hq, transition_queue, ← List.append_assoc]
      obtain ⟨e₁, e₂⟩ := transition_parity s.cycle.light _ hp
      rw [← e₁]
      exact ⟨rfl, e₂⟩
    · have hd' : transitionDue ticksPerMs longBits now₁ s.cycle = false := by simpa using hd
      simp only [cycleIteration_not_due _ _ _ _ _ hd']
      exact ⟨hq, hp⟩
  | wait w =>
    by_cases hr : s.hasReturned w = true
    · exact ⟨s, by simp [Shared.step, hr], hq, hp⟩
    · have hr' : s.hasReturned w = false := by simpa using hr
      cases hqq : s.cycle.light._q._q with
      | nil =>
        refine ⟨s, ?_, hq, hp⟩
        simp [Shared.step, hr', waitForGreenIteration_nil _ hqq]
      | cons x xs =>
        simp only [Shared.transcript, hqq] at hq hp
        cases x with
        | red =>
          refine ⟨_, by simp only [Shared.step, hr', waitForGreenIteration_red _ xs hqq]; rfl, ?_⟩
          simpa [Shared.transcript] using And.intro hq hp
        | green =>
          refine ⟨_, by simp only [Shared.step, hr', waitForGreenIteration_green _ xs hqq]; rfl, ?_⟩
          cases w <;> simpa [Shared.transcript, Shared.markReturned] using And.intro hq hp

theorem Shared.run_transcript (ticksPerMs longBits : Nat) (events : List Event) :
    ∀ s : Shared, s.transcript = alternating s.transcript.length →
      (s.cycle.light._currentPhase =
        if s.transcript.length % 2 = 0 then TrafficLightPhase.red
        else TrafficLightPhase.green) →
      ∃ s', Shared.run ticksPerMs longBits events s = some s' ∧
        s'.transcript = alternating s'.transcript.length := by
  induction events with
  | nil => intro s hq _; exact ⟨s, rfl, hq⟩
  | cons e es ih =>
    intro s hq hp
    obtain ⟨s₁, h₁, hq₁, hp₁⟩ := Shared.step_transcript ticksPerMs longBits s e hq hp
    obtain ⟨s₂, h₂, hq₂⟩ := ih s₁ hq₁ hp₁
    exact ⟨s₂, by simp [Shared.run, h₁, h₂], hq₂⟩

/-! ## Claims on the queue -/

/-- C1: FIFO order.  For every initial contents `q` and every list `vs`,
`send(v1); ...; send(vn)` followed by `|q| + n` calls of `receive()` by one
consumer returns the elements of `q` followed by `v1, ..., vn` in that order
and leaves the queue empty; in particular `send(1); send(2)` followed by two
receives returns `1` then `2`. -/
theorem C1_fifo_order :
    (∀ (T : Type) (q vs : List T),
      receiveN (q.length + vs.length) (sendAll ⟨q⟩ vs) = some (q ++ vs, ⟨[]⟩)) ∧
    receiveN 2 (((MessageQueue.mk ([] : List Nat)).send 1).send 2) = some ([1, 2], ⟨[]⟩) := by
  refine ⟨?_, rfl⟩
  intro T q vs
  have h : sendAll ⟨q⟩ vs = MessageQueue.mk (q ++ vs) := by
    have := sendAll_q vs (MessageQueue.mk q)
    cases hq : sendAll ⟨q⟩ vs with
    | mk l => rw [hq] at this; simp at this; rw [this]
  rw [h, ← List.length_append]
  exact receiveN_all (q ++ vs)

/-- C2: no loss, no duplication, no reordering.  For every interleaving of
atomic `send` and `receive` steps from the empty queue, no step is undefined,
the values received so far followed by the queue contents are exactly the
values sent so far, which are the values of the `send` steps in order; hence
once as many values were received as were sent, the queue is empty and the
k-th value received is the k-th value sent. -/
theorem C2_no_loss_no_duplication (T : Type) (ops : List (QueueOp T)) :
    ∃ s, Trace.run ops (Trace.start T) = some s ∧
      s.received ++ s.queue._q = s.sent ∧
      s.sent = sentValues ops ∧
      (s.received.length = s.sent.length → s.queue._q = [] ∧ s.received = s.sent) := by
  obtain ⟨s, hrun, hinv, hs⟩ := Trace.run_invariant ops (Trace.start T) rfl
  refine ⟨s, hrun, hinv, by simpa [Trace.start] using hs, ?_⟩
  intro hlen
  have hl : s.received.length + s.queue._q.length = s.sent.length := by
    rw [← hinv, List.length_append]
  have hq : s.queue._q = [] := List.eq_nil_of_length_eq_zero (by omega)
  refine ⟨hq, ?_⟩
  rw [← hinv, hq, List.append_nil]

/-- C3: blocking correctness of `receive`.  It returns a value exactly when the
queue is non-empty at the predicate check and never reaches `front()` on an
empty queue; when it returns, the value is the head and the queue left is the
tail, one shorter.  On the empty queue it stays blocked with the queue
unchanged, and after one `send(v)` it returns `v` and leaves the queue empty. -/
theorem C3_receive_blocking (T : Type) :
    (∀ mq : MessageQueue T, (∃ msg mq', mq.receive = Received.returned msg mq') ↔ mq._q ≠ []) ∧
    (∀ mq : MessageQueue T, mq.receive ≠ Received.undefined) ∧
    (∀ (mq mq' : MessageQueue T) (msg : T), mq.receive = Received.returned msg mq' →
      mq._q = msg :: mq'._q ∧ mq'._q.length + 1 = mq._q.length) ∧
    (∀ mq : MessageQueue T, mq._q = [] → mq.receive = Received.blocked mq) ∧
    (∀ v : T, ((MessageQueue.mk ([] : List T)).send v).receive = Received.returned v ⟨[]⟩) := by
  refine ⟨?_, ?_, ?_, ?_, ?_⟩
  · rintro ⟨q⟩
    cases q with
    | nil => simp [receive_nil]
    | cons x xs => simp [receive_cons]
  · rintro ⟨q⟩
    cases q with
    | nil => simp [receive_nil]
    | cons x xs => simp [receive_cons]
  · rintro ⟨q⟩ mq' msg h
    cases q with
    | nil => simp [receive_nil] at h
    | cons x xs =>
      simp only [receive_cons, Received.returned.injEq] at h
      obtain ⟨rfl, rfl⟩ := h
      simp
  · rintro ⟨q⟩ h
    simp only at h
    subst h
    rfl
  · intro v
    rfl


/-- Witness for C2: in the interleaving send 1, receive, receive (blocked),
send 2, receive, two values were sent and two received, so the queue is empty
and the values received are 1, 2. -/
theorem C2_no_loss_no_duplication_witness :
    ∃ s, Trace.run
        [QueueOp.send 1, QueueOp.receive, QueueOp.receive, QueueOp.send 2, QueueOp.receive]
        (Trace.start Nat) = some s ∧
      s.received.length = s.sent.length ∧ s.queue._q = [] ∧ s.received = [1, 2] := by
  obtain ⟨s, hrun, _, hs, hall⟩ := C2_no_loss_no_duplication Nat
    [QueueOp.send 1, QueueOp.receive, QueueOp.receive, QueueOp.send 2, QueueOp.receive]
  have hrun' : Trace.run
      [QueueOp.send 1, QueueOp.receive, QueueOp.receive, QueueOp.send 2, QueueOp.receive]
      (Trace.start Nat) = some ⟨⟨[]⟩, [1, 2], [1, 2]⟩ := by decide
  have he : s = ⟨⟨[]⟩, [1, 2], [1, 2]⟩ := Option.some.inj (hrun.symm.trans hrun')
  have hlen : s.received.length = s.sent.length := by rw [he]
  exact ⟨s, hrun, hlen, (hall hlen).1, by rw [(hall hlen).2, hs]; rfl⟩

/-- Witness for C3: `receive` on the queue 7, 8 returns 7 and leaves 8. -/
theorem C3_receive_blocking_witness :
    (MessageQueue.mk [7, 8]).receive = Received.returned 7 ⟨[8]⟩ ∧
    (MessageQueue.mk [7, 8])._q = 7 :: (MessageQueue.mk [8])._q ∧
    (MessageQueue.mk [8])._q.length + 1 = (MessageQueue.mk [7, 8])._q.length :=
  ⟨rfl, (C3_receive_blocking Nat).2.2.1 ⟨[7, 8]⟩ ⟨[8]⟩ 7 rfl⟩

/-! ## Claims on the traffic light -/

/-- C4: state machine of the traffic light.  A newly constructed light is red;
a pass of the cycling loop either leaves the phase as it is or toggles it (red
to green, green to red); after exactly `k` transitions from the initial state
the phase is red when `k` is even and green when `k` is odd, both for `k`
successive transitions and for any run of the loop with `k` transitions. -/
theorem C4_state_machine :
    TrafficLight.init._currentPhase = TrafficLightPhase.red ∧
    (∀ (ticksPerMs longBits : Nat) (now₁ now₂ : Int) (s : CycleState),
      (transitionDue ticksPerMs longBits now₁ s = false ∧
        (cycleIteration ticksPerMs longBits now₁ now₂ s).light._currentPhase = s.light._currentPhase) ∨
      (transitionDue ticksPerMs longBits now₁ s = true ∧
        (s.light._currentPhase = TrafficLightPhase.red →
          (cycleIteration ticksPerMs longBits now₁ now₂ s).light._currentPhase = TrafficLightPhase.green) ∧
        (s.light._currentPhase = TrafficLightPhase.green →
          (cycleIteration ticksPerMs longBits now₁ now₂ s).light._currentPhase = TrafficLightPhase.red))) ∧
    (∀ k : Nat, (TrafficLight.transition^[k] TrafficLight.init)._currentPhase =
      if k % 2 = 0 then TrafficLightPhase.red else TrafficLightPhase.green) ∧
    (∀ (ticksPerMs longBits : Nat) (distr : Nat → ℚ) (start : Int) (readings : List (Int × Int)),
      (TrafficLight.init.cycleThroughPhases ticksPerMs longBits distr start readings).light._currentPhase =
        if transitionCount ticksPerMs longBits readings (cycleStart distr start TrafficLight.init) % 2 = 0
        then TrafficLightPhase.red else TrafficLightPhase.green) := by
  refine ⟨rfl, ?_, fun k => (iterate_transition_transcript k).2,
    fun t b d st rs => (cycleRun_start_transcript t b d st rs).2⟩
  intro t b n₁ n₂ s
  cases hd : transitionDue t b n₁ s with
  | false => left; rw [cycleIteration_not_due _ _ _ _ _ hd]; exact ⟨rfl, rfl⟩
  | true =>
    right
    rw [cycleIteration_due _ _ _ _ _ hd]
    exact ⟨rfl, transition_phase s.light⟩

/-- Witness for C4: from the initial state with target 4000 on a millisecond
clock, the pass reading 4000 is a transition and turns the red light green. -/
theorem C4_state_machine_witness :
    transitionDue 1 64 4000 (cycleStart (fun _ => 4000) 0 TrafficLight.init) = true ∧
    (cycleStart (fun _ => 4000) 0 TrafficLight.init).light._currentPhase = TrafficLightPhase.red ∧
    (cycleIteration 1 64 4000 4001
      (cycleStart (fun _ => 4000) 0 TrafficLight.init)).light._currentPhase =
        TrafficLightPhase.green := by
  rcases C4_state_machine.2.1 1 64 4000 4001 (cycleStart (fun _ => 4000) 0 TrafficLight.init) with
    h | h
  · exact absurd h.1 (by decide)
  · exact ⟨h.1, rfl, h.2.1 rfl⟩

/-- C6: transcript invariant of the cycling loop.  In every state reached from
a newly constructed light by passes of the loop, the queue holds green, red,
green, ... with one value per transition (the value at 0-based index `j` is
green exactly when `j` is even); when the queue is not empty its last value is
the current phase; and a further pass either changes nothing or appends
exactly one value, equal to the phase that results from the transition. -/
theorem C6_transcript_invariant (ticksPerMs longBits : Nat) (distr : Nat → ℚ) (start : Int)
    (readings : List (Int × Int)) :
    (TrafficLight.init.cycleThroughPhases ticksPerMs longBits distr start readings).light._q._q =
      alternating (transitionCount ticksPerMs longBits readings (cycleStart distr start TrafficLight.init)) ∧
    (∀ j : Nat,
      j < (TrafficLight.init.cycleThroughPhases ticksPerMs longBits distr start readings).light._q._q.length →
      (TrafficLight.init.cycleThroughPhases ticksPerMs longBits distr start readings).light._q._q[j]? =
        some (if j % 2 = 0 then TrafficLightPhase.green else TrafficLightPhase.red)) ∧
    ((TrafficLight.init.cycleThroughPhases ticksPerMs longBits distr start readings).light._q._q ≠ [] →
      (TrafficLight.init.cycleThroughPhases ticksPerMs longBits distr start readings).light._q._q.getLast? =
        some (TrafficLight.init.cycleThroughPhases ticksPerMs longBits distr start readings).light._currentPhase) ∧
    (∀ now₁ now₂ : Int,
      (transitionDue ticksPerMs longBits now₁
          (TrafficLight.init.cycleThroughPhases ticksPerMs longBits distr start readings) = false ∧
        cycleIteration ticksPerMs longBits now₁ now₂
            (TrafficLight.init.cycleThroughPhases ticksPerMs longBits distr start readings) =
          TrafficLight.init.cycleThroughPhases ticksPerMs longBits distr start readings) ∨
      (transitionDue ticksPerMs longBits now₁
          (TrafficLight.init.cycleThroughPhases ticksPerMs longBits distr start readings) = true ∧
        (cycleIteration ticksPerMs longBits now₁ now₂
            (TrafficLight.init.cycleThroughPhases ticksPerMs longBits distr start readings)).light._q._q =
          (TrafficLight.init.cycleThroughPhases ticksPerMs longBits distr start readings).light._q._q ++
            [(cycleIteration ticksPerMs longBits now₁ now₂
              (TrafficLight.init.cycleThroughPhases ticksPerMs longBits distr start readings)).light._currentPhase])) := by
  obtain ⟨hq, hp⟩ := cycleRun_start_transcript ticksPerMs longBits distr start readings
  generalize TrafficLight.init.cycleThroughPhases ticksPerMs longBits distr start readings = s at hq hp ⊢
  generalize transitionCount ticksPerMs longBits readings (cycleStart distr start TrafficLight.init) = n
    at hq hp ⊢
  refine ⟨hq, ?_, ?_, ?_⟩
  · intro j hj
    rw [hq] at hj ⊢
    rw [alternating_length] at hj
    exact alternating_getElem? n j hj
  · intro hne
    rw [hq] at hne ⊢
    cases n with
    | zero => exact absurd rfl hne
    | succ m =>
      rw [alternating_getLast?, hp]
      rcases Nat.mod_two_eq_zero_or_one m with h | h
      · have h' : (m + 1) % 2 = 1 := by omega
        simp [h, h']
      · have h' : (m + 1) % 2 = 0 := by omega
        simp [h, h']
  · intro n₁ n₂
    cases hd : transitionDue ticksPerMs longBits n₁ s with
    | false => left; exact ⟨rfl, cycleIteration_not_due _ _ _ _ _ hd⟩
    | true =>
      right
      rw [cycleIteration_due _ _ _ _ _ hd]
      exact ⟨rfl, transition_queue s.light⟩

/-- Witness for C6 on a run of three passes, the last of which makes the first
transition. -/
theorem C6_transcript_invariant_witness :
    (TrafficLight.init.cycleThroughPhases 1 64 (fun _ => 4000) 0
      [(1, 1), (3999, 3999), (4000, 4001)]).light._q._q ≠ [] ∧
    (TrafficLight.init.cycleThroughPhases 1 64 (fun _ => 4000) 0
      [(1, 1), (3999, 3999), (4000, 4001)]).light._q._q.getLast? =
      some (TrafficLight.init.cycleThroughPhases 1 64 (fun _ => 4000) 0
        [(1, 1), (3999, 3999), (4000, 4001)]).light._currentPhase := by
  have hne : (TrafficLight.init.cycleThroughPhases 1 64 (fun _ => 4000) 0
      [(1, 1), (3999, 3999), (4000, 4001)]).light._q._q ≠ [] := by
    set_option maxRecDepth 4096 in decide
  exact ⟨hne,
    (C6_transcript_invariant 1 64 (fun _ => 4000) 0 [(1, 1), (3999, 3999), (4000, 4001)]).2.2.1 hne⟩

/-- C5: `waitForGreen` consumes exactly up to the first green.  With a single
caller and queue contents whose first green is at index `i`, it returns after
`i + 1` receives, which yield `i` values red and then green, and leaves the
elements after index `i`.  With no green in the queue it consumes the whole
queue and stays blocked in `receive`; from there a later `send(red)` is
consumed without returning and a later `send(green)` makes it return.  The
phase `_currentPhase` of the light is the same afterwards, and any fuel above
the queue length gives the same outcome. -/
theorem C5_waitForGreen (tl : TrafficLight) :
    (∀ i : Nat, tl._q._q[i]? = some TrafficLightPhase.green →
      (∀ j, j < i → tl._q._q[j]? ≠ some TrafficLightPhase.green) →
      tl.waitForGreen =
          some (Waited.returned (tl._q._q.take (i + 1))
            { tl with _q := ⟨tl._q._q.drop (i + 1)⟩ }) ∧
        (tl._q._q.take (i + 1)).length = i + 1 ∧
        tl._q._q.take (i + 1) =
          List.replicate i TrafficLightPhase.red ++ [TrafficLightPhase.green]) ∧
    (TrafficLightPhase.green ∉ tl._q._q →
      tl.waitForGreen = some (Waited.blocked tl._q._q { tl with _q := ⟨[]⟩ }) ∧
        TrafficLight.waitForGreen
            { tl with _q := (MessageQueue.mk []).send TrafficLightPhase.red } =
          some (Waited.blocked [TrafficLightPhase.red] { tl with _q := ⟨[]⟩ }) ∧
        TrafficLight.waitForGreen
            { tl with _q := (MessageQueue.mk []).send TrafficLightPhase.green } =
          some (Waited.returned [TrafficLightPhase.green] { tl with _q := ⟨[]⟩ })) ∧
    (∀ fuel : Nat, tl._q._q.length < fuel → waitForGreenLoop fuel [] tl = tl.waitForGreen) := by
  refine ⟨?_, ?_, ?_⟩
  · intro i hg hfirst
    have hi : i < tl._q._q.length := by
      by_contra hc
      rw [List.getElem?_eq_none (by omega)] at hg
      exact absurd hg (by simp)
    refine ⟨?_, ?_, take_first_green i _ hg hfirst⟩
    · have := waitForGreenLoop_returns i tl [] (tl._q._q.length + 1) hg hfirst (by omega)
      simpa [TrafficLight.waitForGreen] using this
    · rw [List.length_take]
      omega
  · intro hno
    refine ⟨?_, rfl, rfl⟩
    have := waitForGreenLoop_blocks tl._q._q tl [] (tl._q._q.length + 1) rfl hno (by omega)
    simpa [TrafficLight.waitForGreen] using this
  · intro fuel hf
    exact waitForGreenLoop_fuel tl._q._q tl [] fuel (tl._q._q.length + 1) rfl hf (by omega)

/-- Witness for C5: on the queue red, red, green, red, green the first green is
at index 2; three receives are made and red, green are left. -/
theorem C5_waitForGreen_witness :
    TrafficLight.waitForGreen
        { TrafficLight.init with
          _q := ⟨[TrafficLightPhase.red, TrafficLightPhase.red, TrafficLightPhase.green,
            TrafficLightPhase.red, TrafficLightPhase.green]⟩ } =
      some (Waited.returned
        [TrafficLightPhase.red, TrafficLightPhase.red, TrafficLightPhase.green]
        { TrafficLight.init with
          _q := ⟨[TrafficLightPhase.red, TrafficLightPhase.green]⟩ }) :=
  ((C5_waitForGreen
      { TrafficLight.init with
        _q := ⟨[TrafficLightPhase.red, TrafficLightPhase.red, TrafficLightPhase.green,
          TrafficLightPhase.red, TrafficLightPhase.green]⟩ }).1 2 (by decide) (by decide)).1

/-- C7, as stated, fails: with a source whose first draw is 4000 and whose later
draws are 5000, the pass at clock reading 4000 makes a transition (green is
enqueued), yet no draw is made: the count of draws is still 1 and the target
is still the first draw, not the next one. -/
theorem C7_redraw_counterexample :
    (cycleIteration 1 64 4000 4000
        (cycleStart (fun k => if k = 0 then 4000 else 5000) 0 TrafficLight.init)).light._q._q =
      [TrafficLightPhase.green] ∧
    (cycleIteration 1 64 4000 4000
        (cycleStart (fun k => if k = 0 then 4000 else 5000) 0 TrafficLight.init)).draws = 1 ∧
    (cycleIteration 1 64 4000 4000
        (cycleStart (fun k => if k = 0 then 4000 else 5000) 0 TrafficLight.init)).phaseDuration =
      (fun k : Nat => if k = 0 then (4000 : ℚ) else 5000) 0 ∧
    (cycleIteration 1 64 4000 4000
        (cycleStart (fun k => if k = 0 then 4000 else 5000) 0 TrafficLight.init)).phaseDuration ≠
      (fun k : Nat => if k = 0 then (4000 : ℚ) else 5000) 1 := by
  decide

/-- C7, amended: the phase duration is drawn once for the whole loop.  With a
source whose first value lies in [4000, 6000), after any number of passes the
target is that first draw, exactly one draw has been made, the target lies in
[4000, 6000), and a further pass, transition or not, leaves the target and the
number of draws as they are. -/
theorem C7_duration_drawn_once (tl : TrafficLight) (ticksPerMs longBits : Nat) (distr : Nat → ℚ)
    (start : Int) (readings : List (Int × Int))
    (hlo : 4000 ≤ distr 0) (hhi : distr 0 < 6000) :
    (tl.cycleThroughPhases ticksPerMs longBits distr start readings).phaseDuration = distr 0 ∧
    (tl.cycleThroughPhases ticksPerMs longBits distr start readings).draws = 1 ∧
    4000 ≤ (tl.cycleThroughPhases ticksPerMs longBits distr start readings).phaseDuration ∧
    (tl.cycleThroughPhases ticksPerMs longBits distr start readings).phaseDuration < 6000 ∧
    (∀ now₁ now₂ : Int,
      (cycleIteration ticksPerMs longBits now₁ now₂
          (tl.cycleThroughPhases ticksPerMs longBits distr start readings)).phaseDuration = distr 0 ∧
        (cycleIteration ticksPerMs longBits now₁ now₂
          (tl.cycleThroughPhases ticksPerMs longBits distr start readings)).draws = 1) := by
  have h := cycleRun_locals ticksPerMs longBits readings (cycleStart distr start tl)
  have hd : (tl.cycleThroughPhases ticksPerMs longBits distr start readings).phaseDuration = distr 0 := h.1
  have hn : (tl.cycleThroughPhases ticksPerMs longBits distr start readings).draws = 1 := h.2
  refine ⟨hd, hn, hd ▸ hlo, hd ▸ hhi, ?_⟩
  intro n₁ n₂
  have h' := cycleIteration_locals ticksPerMs longBits n₁ n₂
    (tl.cycleThroughPhases ticksPerMs longBits distr start readings)
  exact ⟨h'.1.trans hd, h'.2.trans hn⟩

/-- Witness for the amended C7: a run with two transitions keeps the first
draw 4000 as its target. -/
theorem C7_duration_drawn_once_witness :
    (4000 : ℚ) ≤ (fun k : Nat => if k = 0 then (4000 : ℚ) else 5000) 0 ∧
    (TrafficLight.init.cycleThroughPhases 1 64 (fun k => if k = 0 then 4000 else 5000) 0
      [(4000, 4001), (8001, 8002)]).phaseDuration =
      (fun k : Nat => if k = 0 then (4000 : ℚ) else 5000) 0 :=
  ⟨by decide,
    (C7_duration_drawn_once TrafficLight.init 1 64 (fun k => if k = 0 then 4000 else 5000) 0
      [(4000, 4001), (8001, 8002)] (by decide) (by decide)).1⟩

/-- C8: transition condition of one pass, for a target of at least 4000 and
clock readings whose difference is representable (the exact tick difference
fits the 64-bit tick count and its whole milliseconds fit a `long`).  The
count the code stores is then the elapsed time since the reference truncated
to whole milliseconds.  When it is less than the target, the pass changes
nothing.  When it reaches the target, the pass toggles the phase once, appends
exactly one value (the new phase) to the queue and sets the reference to the
clock reading taken after the send.  A pass with fewer than 4000 ms elapsed
changes nothing, a pass that makes a transition has at least 4000 ms of clock
ticks between the reference and its reading, and so has the next transition
after any passes without one: the time from the reference set by a transition
to the reading of the next is at least 4000 ms. -/
theorem C8_transition_condition (ticksPerMs longBits : Nat) (now₁ now₂ : Int) (s : CycleState)
    (hlo : 4000 ≤ s.phaseDuration) (hb : 0 < longBits)
    (hd₁ : -((2 : Int) ^ 63) ≤ now₁ - s.lastUpdate)
    (hd₂ : now₁ - s.lastUpdate < (2 : Int) ^ 63)
    (hl₁ : -((2 : Int) ^ (longBits - 1)) ≤ (now₁ - s.lastUpdate).tdiv ticksPerMs)
    (hl₂ : (now₁ - s.lastUpdate).tdiv ticksPerMs < (2 : Int) ^ (longBits - 1)) :
    timeSinceLastUpdate ticksPerMs longBits now₁ s = (now₁ - s.lastUpdate).tdiv ticksPerMs ∧
    ((((now₁ - s.lastUpdate).tdiv ticksPerMs : Int) : ℚ) < s.phaseDuration →
      cycleIteration ticksPerMs longBits now₁ now₂ s = s) ∧
    (s.phaseDuration ≤ (((now₁ - s.lastUpdate).tdiv ticksPerMs : Int) : ℚ) →
      cycleIteration ticksPerMs longBits now₁ now₂ s =
          { s with light := s.light.transition, lastUpdate := now₂ } ∧
        (cycleIteration ticksPerMs longBits now₁ now₂ s).light._currentPhase ≠
          s.light._currentPhase ∧
        (cycleIteration ticksPerMs longBits now₁ now₂ s).light._q._q =
          s.light._q._q ++
            [(cycleIteration ticksPerMs longBits now₁ now₂ s).light._currentPhase] ∧
        (cycleIteration ticksPerMs longBits now₁ now₂ s).lastUpdate = now₂ ∧
        4000 * (ticksPerMs : Int) ≤ now₁ - s.lastUpdate ∧
        (∀ (readings : List (Int × Int)) (next : Int),
          transitionCount ticksPerMs longBits readings
            (cycleIteration ticksPerMs longBits now₁ now₂ s) = 0 →
          -((2 : Int) ^ 63) ≤ next - now₂ → next - now₂ < (2 : Int) ^ 63 →
          -((2 : Int) ^ (longBits - 1)) ≤ (next - now₂).tdiv ticksPerMs →
          (next - now₂).tdiv ticksPerMs < (2 : Int) ^ (longBits - 1) →
          transitionDue ticksPerMs longBits next
            (cycleRun ticksPerMs longBits readings
              (cycleIteration ticksPerMs longBits now₁ now₂ s)) = true →
          4000 * (ticksPerMs : Int) ≤ next - now₂)) ∧
    ((now₁ - s.lastUpdate).tdiv ticksPerMs < 4000 →
      cycleIteration ticksPerMs longBits now₁ now₂ s = s) := by
  have hex := timeSinceLastUpdate_exact ticksPerMs longBits now₁ s hb hd₁ hd₂ hl₁ hl₂
  have hdue : transitionDue ticksPerMs longBits now₁ s = true ↔
      s.phaseDuration ≤ (((now₁ - s.lastUpdate).tdiv ticksPerMs : Int) : ℚ) := by
    rw [due_iff, hex]
  refine ⟨hex, ?_, ?_, ?_⟩
  · intro h
    apply cycleIteration_not_due
    by_contra hc
    have hc' : transitionDue ticksPerMs longBits now₁ s = true := by simpa using hc
    exact absurd (hdue.1 hc') (not_le.2 h)
  · intro h
    have hd : transitionDue ticksPerMs longBits now₁ s = true := hdue.2 h
    have he := cycleIteration_due ticksPerMs longBits now₁ now₂ s hd
    refine ⟨he, ?_, ?_, ?_, elapsed_of_due _ _ _ _ hlo hb hd₁ hd₂ hl₁ hl₂ hd, ?_⟩
    · rw [he]
      cases hp : s.light._currentPhase with
      | red => simp [(transition_phase s.light).1 hp]
      | green => simp [(transition_phase s.light).2 hp]
    · rw [he]
      exact transition_queue s.light
    · rw [he]
    · intro readings next hz hn₁ hn₂ hm₁ hm₂ hnext
      rw [cycleRun_no_transition _ _ _ _ hz] at hnext
      have hlu : (cycleIteration ticksPerMs longBits now₁ now₂ s).lastUpdate = now₂ := by rw [he]
      have := elapsed_of_due ticksPerMs longBits next
        (cycleIteration ticksPerMs longBits now₁ now₂ s)
        (by rw [(cycleIteration_locals _ _ _ _ _).1]; exact hlo) hb
        (by rw [hlu]; exact hn₁) (by rw [hlu]; exact hn₂)
        (by rw [hlu]; exact hm₁) (by rw [hlu]; exact hm₂) hnext
      rw [hlu] at this
      exact this
  · intro h
    apply cycleIteration_not_due
    by_contra hc
    have hc' : transitionDue ticksPerMs longBits now₁ s = true := by simpa using hc
    have h₁ := hdue.1 hc'
    have h₂ : (4000 : ℚ) ≤ (((now₁ - s.lastUpdate).tdiv ticksPerMs : Int) : ℚ) := le_trans hlo h₁
    have h₃ : (4000 : Int) ≤ (now₁ - s.lastUpdate).tdiv ticksPerMs := by exact_mod_cast h₂
    omega

/-- Witness for C8: with target 4000 and reference 0 on a millisecond clock
and a 64-bit `long`, the pass reading 4000 makes a transition and resets the
reference to the second reading 4001. -/
theorem C8_transition_condition_witness :
    (4000 : ℚ) ≤ (cycleStart (fun _ => 4000) 0 TrafficLight.init).phaseDuration ∧
    -((2 : Int) ^ 63) ≤ 4000 - (cycleStart (fun _ => 4000) 0 TrafficLight.init).lastUpdate ∧
    4000 - (cycleStart (fun _ => 4000) 0 TrafficLight.init).lastUpdate < (2 : Int) ^ 63 ∧
    timeSinceLastUpdate 1 64 4000 (cycleStart (fun _ => 4000) 0 TrafficLight.init) = 4000 ∧
    (cycleIteration 1 64 4000 4001 (cycleStart (fun _ => 4000) 0 TrafficLight.init)).lastUpdate =
      4001 :=
  ⟨by decide, by decide, by decide,
    (C8_transition_condition 1 64 4000 4001 (cycleStart (fun _ => 4000) 0 TrafficLight.init)
      (by decide) (by decide) (by decide) (by decide) (by decide) (by decide)).1,
    ((C8_transition_condition 1 64 4000 4001 (cycleStart (fun _ => 4000) 0 TrafficLight.init)
      (by decide) (by decide) (by decide) (by decide) (by decide) (by decide)).2.2.1
        (by decide)).2.2.2.1⟩

/-- C9, as stated, fails: a second call of `simulate()` on the same light is
not rejected; it returns the light with a second thread running
`cycleThroughPhases` next to the first. -/
theorem C9_double_simulate_counterexample :
    TrafficLight.init.simulate.simulate =
      { TrafficLight.init with
        threads := [Worker.cycleThroughPhases, Worker.cycleThroughPhases] } := by
  rfl

/-- C9, amended: `simulate()` has no guard against a repeated call.  Every
call, the second on the same light included, appends one more thread running
`cycleThroughPhases` and leaves the phase and the queue as they are, so after
`k` calls `k` more cycling loops run on the same light. -/
theorem C9_simulate_unguarded (tl : TrafficLight) :
    tl.simulate.threads = tl.threads ++ [Worker.cycleThroughPhases] ∧
    tl.simulate._currentPhase = tl._currentPhase ∧
    tl.simulate._q = tl._q ∧
    tl.simulate.simulate.threads =
      tl.threads ++ [Worker.cycleThroughPhases, Worker.cycleThroughPhases] ∧
    (∀ k : Nat, (TrafficLight.simulate^[k] tl).threads =
      tl.threads ++ List.replicate k Worker.cycleThroughPhases) := by
  refine ⟨rfl, rfl, rfl, by simp [TrafficLight.simulate], ?_⟩
  intro k
  induction k with
  | zero => simp
  | succ k ih =>
    rw [Function.iterate_succ_apply']
    simp [TrafficLight.simulate, ih, List.replicate_succ']

/-- C10: shared-queue hazard with two waiters.  On a millisecond clock with
target 4000: both waiters A and B are blocked on the empty queue, the cycling
loop turns the light green, A receives the green and returns; the queue is
then empty, the light is green, and B, which was waiting when the light turned
green, takes its next step without returning.  In every interleaving of the
cycling loop and the two waiters no step is undefined and the values
delivered, each to the one waiter recorded with it, followed by the values
still queued, are exactly the values enqueued: green, red, green, ... -/
theorem C10_shared_queue_hazard :
    (Shared.run 1 64
        [Event.wait Waiter.A, Event.wait Waiter.B, Event.cycle 4000 4000, Event.wait Waiter.A,
          Event.wait Waiter.B]
        (Shared.start (cycleStart (fun _ => 4000) 0 TrafficLight.init)) =
      some
        { cycle :=
            { light := { _currentPhase := TrafficLightPhase.green, _q := ⟨[]⟩, threads := [] },
              lastUpdate := 4000, phaseDuration := 4000, draws := 1 },
          returnedA := true, returnedB := false,
          deliveries := [(Waiter.A, TrafficLightPhase.green)] }) ∧
    (∀ (ticksPerMs longBits : Nat) (distr : Nat → ℚ) (start : Int) (events : List Event),
      ∃ s, Shared.run ticksPerMs longBits events
          (Shared.start (cycleStart distr start TrafficLight.init)) = some s ∧
        s.deliveries.map Prod.snd ++ s.cycle.light._q._q =
          alternating (s.deliveries.length + s.cycle.light._q._q.length)) := by
  constructor
  · decide
  · intro t b d st events
    obtain ⟨s, hrun, hq⟩ := Shared.run_transcript t b events
      (Shared.start (cycleStart d st TrafficLight.init)) rfl rfl
    refine ⟨s, hrun, ?_⟩
    simpa [Shared.transcript] using hq

end TrafficSim
